import Mathlib

/-!
# Verification of the fjoin file-selection pipeline

Shallow embedding of `src/index.js` (the main iteration of the fjoin tool):
the ignore-rule loading, include-override resolution, candidate selection
loop, skip-reason attribution, warning emission and output-file handling.

External capabilities (filesystem, the `ignore` pattern library, the
`fast-glob` expansion, binary sniffing) are modelled as an explicit
environment of pure oracles, as the specification prescribes ("given a
file, report whether it is binary", etc.).  Machine state mutated by the
program (the warning ledgers and the accumulated output text) is threaded
explicitly through a `Ledger` record.
-/

/-- Environment of external capabilities consumed by the program.
`readFile f = none` models a read failure (missing file or I/O error);
`statIsDir p = none` models a `stat` failure; `ignores c p` models
`ignore().add(c).ignores(p)` from the `ignore` npm library (`c` is raw
rule text: a whole file's content, or a single pattern line);
`expandGlob g` models `fg.glob(g, onlyFiles)` returning matched file
paths; `resolveAbs` models `path.resolve`; `relativeOf` models
`relative(process.cwd(), p)`; `fileExists` models `access(p, F_OK)`
succeeding. -/
structure Env where
  readFile : String → Option String
  statIsDir : String → Option Bool
  isBinary : String → Bool
  ignores : String → String → Bool
  expandGlob : String → List String
  resolveAbs : String → String
  relativeOf : String → String
  fileExists : String → Bool

/-- Parsed command line of `src/index.js` (`parseArgs` options plus the
positional arguments). -/
structure Config where
  output : Option String := none
  force : Bool := false
  noGitignore : Bool := false
  includeArg : List String := []
  ignoreFile : List String := []
  quiet : Bool := false
  positionals : List String := []

/-- The mutable global state of `src/index.js`: the report lists
(`skippedDirectories`, `skippedBinaryFiles`, `skippedFiles`,
`forceIncludedFiles`, the `skippedPatterns` map), the accumulated output
`result`, plus a shadow list of the relative paths whose sections were
appended to `result` (`renderedFiles`) and of the per-file read errors
logged by `processPath` (`readErrors`). -/
structure Ledger where
  renderedFiles : List String := []
  resultText : String := ""
  skippedDirectories : List String := []
  skippedBinaryFiles : List String := []
  skippedFiles : List String := []
  forceIncludedFiles : List String := []
  skippedPatterns : List (String × Nat) := []
  readErrors : List String := []

def initLedger : Ledger := {}

/-- JavaScript `String.prototype.split` with a one-character separator,
on a character list. -/
def splitChar (sep : Char) : List Char → List (List Char)
  | [] => [[]]
  | c :: cs =>
    if c = sep then [] :: splitChar sep cs
    else
      match splitChar sep cs with
      | [] => [[c]]
      | r :: rs => (c :: r) :: rs

/-- ASCII whitespace, for the JavaScript `trim` model. -/
def isWhite (c : Char) : Bool :=
  c = ' ' || c = '\t' || c = '\n' || c = '\r'

/-- JavaScript `String.prototype.trim`: strip whitespace from both
ends. -/
def trimList (l : List Char) : List Char :=
  ((l.dropWhile isWhite).reverse.dropWhile isWhite).reverse

/-- JavaScript `line.startsWith('#')`. -/
def headIsHash (l : List Char) : Bool :=
  match l with
  | c :: _ => c = '#'
  | [] => false

/-- JavaScript `String.prototype.split` with a one-character separator,
at the string level. -/
def splitOnChar (sep : Char) (s : String) : List (List Char) :=
  splitChar sep s.data

/-- Pattern parsing, `content.split('\n').map(trim).filter(line &&
!line.startsWith('#'))`, from `readGitignore` / `readIgnoreFile`. -/
def parsePatterns (content : String) : List String :=
  (((splitOnChar '\n' content).map trimList).filter
    (fun l => !l.isEmpty && !headIsHash l)).map (fun l => ⟨l⟩)

/-- Model of `readGitignore` (src/index.js lines 79-91): a missing `.gitignore` is
not an error and yields `(none, [])`, i.e. the always-false matcher
`ignore()` and an unchanged (empty) global pattern list.  On success the
matcher is the raw content (compiled by the `ignore` library) and the
global pattern list receives the parsed lines. -/
def readGitignore (env : Env) : Option String × List String :=
  match env.readFile (".gitignore") with
  | some content => (some content, parsePatterns content)
  | none => (none, [])

/-- Model of `readIgnoreFile` (src/index.js lines 93-105): a missing named custom
ignore file is fatal (`console.error` + `process.exit(1)`), modelled by
`Except.error`. -/
def readIgnoreFile (env : Env) (filePath : String) :
    Except String (String × List String) :=
  match env.readFile filePath with
  | some content => .ok (content, parsePatterns content)
  | none => .error ((("Error reading ignore file ") ++ filePath))

/-- Model of `Promise.all(customIgnoreFiles.map(readIgnoreFile))`: every named
custom ignore file is read in order; the first failure aborts. -/
def readIgnoreFiles (env : Env) :
    List String → Except String (List (String × List String))
  | [] => .ok []
  | f :: fs =>
    match readIgnoreFile env f with
    | .error e => .error e
    | .ok r =>
      match readIgnoreFiles env fs with
      | .error e => .error e
      | .ok rs => .ok (r :: rs)

/-- First-occurrence deduplication, as performed by `fast-glob` with its
default `unique` option (and by the `Set` used for the include
overrides): each path is kept exactly once, at its first occurrence. -/
def dedupFirst : List String → List String
  | [] => []
  | x :: xs => x :: (dedupFirst xs).filter (fun y => y ≠ x)

/-- The include-override set (src/index.js lines 144-150): each
`--include` pattern is expanded with `fg.glob(pattern, onlyFiles)` and
the resulting paths are resolved and collected into a `Set`. -/
def includeFilesOf (env : Env) (patterns : List String) : List String :=
  dedupFirst ((patterns.map
    (fun p => (env.expandGlob p).map env.resolveAbs)).flatten)

/-- The loaded rule state of one run: the compiled repository matcher
(`gitignore`, `none` both when `--no-gitignore` is set and when
`.gitignore` is missing — in either case nothing matches), the custom
matchers with their raw pattern lists (`customIgnores`), the merged raw
pattern list used for attribution (`gitignorePatterns`), and the
include-override set (`includeFiles`). -/
structure Stores where
  gitM : Option String := none
  customs : List (String × List String) := []
  gitignorePatterns : List String := []
  includeSet : List String := []

/-- Loading phase of `src/index.js` (lines 139-160): repository ignore
file (unless `--no-gitignore`), custom ignore files (fatal when
missing), merged pattern list (repository patterns first, then custom
patterns in the order the files were named), include-override set. -/
def loadStores (env : Env) (cfg : Config) : Except String Stores :=
  let git := if cfg.noGitignore then (none, []) else readGitignore env
  match readIgnoreFiles env cfg.ignoreFile with
  | .error e => .error e
  | .ok customs =>
    .ok { gitM := git.1
          customs := customs
          gitignorePatterns := git.2 ++ (customs.map (fun r => r.2)).flatten
          includeSet := includeFilesOf env cfg.includeArg }

/-- The test `isGitIgnored || isCustomIgnored` from the selection loop
(src/index.js lines 184-189). -/
def isIgnoredOf (env : Env) (S : Stores) (relPath : String) : Bool :=
  (match S.gitM with
   | some c => env.ignores c relPath
   | none => false)
  || S.customs.any (fun e => env.ignores e.1 relPath)

/-- The computation `path.split('.').pop() || ''` (src/index.js
line 127): the part of
the path after its last dot. -/
def extOf (p : List Char) : List Char :=
  (splitChar '.' p).getLastD []

/-- String-level wrapper of `extOf`. -/
def extLabel (s : String) : String := ⟨extOf s.data⟩

/-- One rendered section of `result` (src/index.js lines 129-133):
header, fenced code block labelled with the extension, trailing rule. -/
def renderOne (relativePath : String) (path : String) (content : String) :
    String :=
  (("# FILE: ") ++ relativePath ++ ("\n\n")) ++
  (("```") ++ extLabel path ++ ("\n")) ++
  content ++ (if String.endsWith content ("\n") then ("") else ("\n")) ++
  (("```") ++ ("\n\n---\n\n"))

/-- Model of `processPath` (src/index.js lines 107-137): re-resolve the path,
skip directories, skip binary files (content-based detection), log and
skip unreadable files, otherwise append the rendered section to
`result`. -/
def processPath (env : Env) (L : Ledger) (path : String) : Ledger :=
  let absolutePath := env.resolveAbs path
  let relativePath := env.relativeOf absolutePath
  match env.statIsDir absolutePath with
  | none => { L with readErrors := L.readErrors ++ [path] }
  | some true =>
    { L with skippedDirectories := L.skippedDirectories ++ [path] }
  | some false =>
    if env.isBinary absolutePath then
      { L with skippedBinaryFiles := L.skippedBinaryFiles ++ [path] }
    else
      match env.readFile absolutePath with
      | none => { L with readErrors := L.readErrors ++ [path] }
      | some content =>
        { L with
            renderedFiles := L.renderedFiles ++ [relativePath]
            resultText := L.resultText ++ renderOne relativePath path content }

/-- JavaScript `Map.set(p, (get(p) || 0) + 1)`: increment in place when
the key is present (insertion order preserved), append `(p, 1)`
otherwise. -/
def bump (m : List (String × Nat)) (p : String) : List (String × Nat) :=
  if m.any (fun e => e.1 = p) then
    m.map (fun e => if e.1 = p then (e.1, e.2 + 1) else e)
  else m ++ [(p, 1)]

/-- One iteration of the selection loop (src/index.js lines 180-211):
the ignore/override gate first — an ignored, non-overridden candidate is
recorded as skipped with first-matching-pattern attribution and the loop
continues — then the override advisory mark, then `processPath`. -/
def selectStep (env : Env) (S : Stores) (L : Ledger)
    (absolutePath : String) : Ledger :=
  let relPath := env.relativeOf absolutePath
  let isIgnored := isIgnoredOf env S relPath
  let isForceIncluded := S.includeSet.contains absolutePath
  if isIgnored && !isForceIncluded then
    let L1 := { L with skippedFiles := L.skippedFiles ++ [relPath] }
    match S.gitignorePatterns.find? (fun pat => env.ignores pat relPath) with
    | some pat => { L1 with skippedPatterns := bump L1.skippedPatterns pat }
    | none => L1
  else
    let L2 :=
      if isIgnored && isForceIncluded then
        { L with forceIncludedFiles := L.forceIncludedFiles ++ [relPath] }
      else L
    processPath env L2 absolutePath

/-- The whole selection loop over the deduplicated candidate list. -/
def foldSelect (env : Env) (S : Stores) (cands : List String) : Ledger :=
  cands.foldl (selectStep env S) initLedger

/-- Modelled from the spec: the File Resolver, implemented in the source
by a single call `fg(positionals, {dot, onlyFiles, absolute})` to the
`fast-glob` library (library code, not among this repository's files).
Per the spec contract, `resolve(arguments) -> deduplicated list of
absolute file paths, order = first-occurrence across arguments`: each
argument expands to its matched files, results are concatenated in
argument order, resolved to absolute paths and deduplicated keeping
first occurrences. -/
def resolveArgs (env : Env) (args : List String) : List String :=
  dedupFirst ((args.map
    (fun a => (env.expandGlob a).map env.resolveAbs)).flatten)

/-- The user-facing messages of one run (in emission order). -/
inductive Msg where
  | noFilesMatched : Msg
  | skippedDirs : List String → Msg
  | skippedBinaries : List String → Msg
  | forceIncludedNote : List String → Msg
  | skippedIgnoredWarning : List String → List (String × Nat) → Msg
deriving DecidableEq

/-- Warning emission (src/index.js lines 175-177 and 213-237): the
no-files advisory is printed whenever a non-empty argument list matched
nothing — with no quiet gate — while the directory, binary,
force-include and gitignore-skip warnings are each gated by
`!values.quiet`. -/
def buildMessages (cfg : Config) (allFiles : List String) (L : Ledger) :
    List Msg :=
  (if allFiles.isEmpty && !cfg.positionals.isEmpty
   then [Msg.noFilesMatched] else [])
  ++ (if !L.skippedDirectories.isEmpty && !cfg.quiet
      then [Msg.skippedDirs L.skippedDirectories] else [])
  ++ (if !L.skippedBinaryFiles.isEmpty && !cfg.quiet
      then [Msg.skippedBinaries L.skippedBinaryFiles] else [])
  ++ (if !L.forceIncludedFiles.isEmpty && !cfg.quiet
      then [Msg.forceIncludedNote L.forceIncludedFiles] else [])
  ++ (if !L.skippedFiles.isEmpty && !cfg.quiet
      then [Msg.skippedIgnoredWarning L.skippedFiles L.skippedPatterns]
      else [])

/-- Outcome of one full run: the final ledgers, the resolved candidate
list, the emitted messages and the written output file (path and
content), `none` when the text went to stdout. -/
structure RunResult where
  ledger : Ledger
  allFiles : List String
  messages : List Msg
  written : Option (String × String)

/-- The whole program after argument parsing (src/index.js lines
74-255): load the rule stores (fatal on a missing custom ignore file),
resolve the candidates, run the selection loop, emit warnings, then
either fail because the output file exists without `--force`, write the
output file, or print to stdout. -/
def run (env : Env) (cfg : Config) : Except String RunResult :=
  match loadStores env cfg with
  | .error e => .error e
  | .ok S =>
    let allFiles := resolveArgs env cfg.positionals
    let L := foldSelect env S allFiles
    let msgs := buildMessages cfg allFiles L
    match cfg.output with
    | some outputPath =>
      if env.fileExists outputPath && !cfg.force then
        .error (("Error: Output file already exists. Use -f or --force to overwrite."))
      else
        .ok { ledger := L, allFiles := allFiles, messages := msgs
              written := some (outputPath, L.resultText) }
    | none =>
      .ok { ledger := L, allFiles := allFiles, messages := msgs
            written := none }

/-- Exit code of a run: 1 on a fatal error, 0 otherwise (skips never
change it). -/
def exitCode (r : Except String RunResult) : Nat :=
  match r with
  | .error _ => 1
  | .ok _ => 0

/-- The mutually exclusive primary fates a candidate can meet in the
selection loop: recorded as ignored, as a directory, as binary, logged
as a per-file read error, or rendered into the output. -/
inductive Primary where
  | rendered : Primary
  | skippedIgnored : Primary
  | skippedBinary : Primary
  | skippedDirectory : Primary
  | fileError : Primary
deriving DecidableEq

/-- Per-candidate decision: the primary fate plus whether the candidate
was marked force-included (pushed to `forceIncludedFiles`).  The mark is
orthogonal to the later `processPath` fate in the source. -/
structure Decision where
  primary : Primary
  forced : Bool
deriving DecidableEq

/-- The selection loop's per-candidate decision as a pure function
(the spec's `decide(candidate, store, overrides)`), read off the same
branches as `selectStep`/`processPath`. -/
def decideOutcome (env : Env) (S : Stores) (absolutePath : String) :
    Decision :=
  let relPath := env.relativeOf absolutePath
  let isIgnored := isIgnoredOf env S relPath
  let isForceIncluded := S.includeSet.contains absolutePath
  if isIgnored && !isForceIncluded then ⟨.skippedIgnored, false⟩
  else
    let forced := isIgnored && isForceIncluded
    match env.statIsDir (env.resolveAbs absolutePath) with
    | none => ⟨.fileError, forced⟩
    | some true => ⟨.skippedDirectory, forced⟩
    | some false =>
      if env.isBinary (env.resolveAbs absolutePath) then
        ⟨.skippedBinary, forced⟩
      else
        match env.readFile (env.resolveAbs absolutePath) with
        | none => ⟨.fileError, forced⟩
        | some _ => ⟨.rendered, forced⟩

/-- Candidates whose decision is a plain (non-overridden) inclusion. -/
def plainIncludedCount (env : Env) (S : Stores) (cands : List String) :
    Nat :=
  cands.countP fun p =>
    decide ((decideOutcome env S p).primary = Primary.rendered
            ∧ (decideOutcome env S p).forced = false)

theorem selectStep_skippedFiles (env : Env) (S : Stores) (L : Ledger)
    (p : String) :
    (selectStep env S L p).skippedFiles
      = L.skippedFiles ++
        (if (decideOutcome env S p).primary = Primary.skippedIgnored
         then [env.relativeOf p] else []) := by
  simp only [selectStep, processPath, decideOutcome]
  by_cases hI : isIgnoredOf env S (env.relativeOf p) = true <;>
  by_cases hF : S.includeSet.contains p = true <;>
  simp only [hI, hF, Bool.not_true, Bool.not_false, Bool.and_true,
    Bool.and_false, Bool.true_and, Bool.false_and, if_true, if_false,
    Bool.and_self] <;>
  rcases hfind : S.gitignorePatterns.find?
      (fun pat => env.ignores pat (env.relativeOf p)) with _ | pat <;>
  rcases hd : env.statIsDir (env.resolveAbs p) with _ | b <;>
  (try cases b) <;>
  by_cases hb : env.isBinary (env.resolveAbs p) = true <;>
  rcases hr : env.readFile (env.resolveAbs p) with _ | c <;>
  simp [hfind, hd, hb, hr]

theorem selectStep_skippedDirectories (env : Env) (S : Stores) (L : Ledger)
    (p : String) :
    (selectStep env S L p).skippedDirectories
      = L.skippedDirectories ++
        (if (decideOutcome env S p).primary = Primary.skippedDirectory
         then [p] else []) := by
  simp only [selectStep, processPath, decideOutcome]
  by_cases hI : isIgnoredOf env S (env.relativeOf p) = true <;>
  by_cases hF : S.includeSet.contains p = true <;>
  simp only [hI, hF, Bool.not_true, Bool.not_false, Bool.and_true,
    Bool.and_false, Bool.true_and, Bool.false_and, if_true, if_false,
    Bool.and_self] <;>
  rcases hfind : S.gitignorePatterns.find?
      (fun pat => env.ignores pat (env.relativeOf p)) with _ | pat <;>
  rcases hd : env.statIsDir (env.resolveAbs p) with _ | b <;>
  (try cases b) <;>
  by_cases hb : env.isBinary (env.resolveAbs p) = true <;>
  rcases hr : env.readFile (env.resolveAbs p) with _ | c <;>
  simp [hfind, hd, hb, hr]

theorem selectStep_skippedBinaryFiles (env : Env) (S : Stores) (L : Ledger)
    (p : String) :
    (selectStep env S L p).skippedBinaryFiles
      = L.skippedBinaryFiles ++
        (if (decideOutcome env S p).primary = Primary.skippedBinary
         then [p] else []) := by
  simp only [selectStep, processPath, decideOutcome]
  by_cases hI : isIgnoredOf env S (env.relativeOf p) = true <;>
  by_cases hF : S.includeSet.contains p = true <;>
  simp only [hI, hF, Bool.not_true, Bool.not_false, Bool.and_true,
    Bool.and_false, Bool.true_and, Bool.false_and, if_true, if_false,
    Bool.and_self] <;>
  rcases hfind : S.gitignorePatterns.find?
      (fun pat => env.ignores pat (env.relativeOf p)) with _ | pat <;>
  rcases hd : env.statIsDir (env.resolveAbs p) with _ | b <;>
  (try cases b) <;>
  by_cases hb : env.isBinary (env.resolveAbs p) = true <;>
  rcases hr : env.readFile (env.resolveAbs p) with _ | c <;>
  simp [hfind, hd, hb, hr]

theorem selectStep_forceIncludedFiles (env : Env) (S : Stores) (L : Ledger)
    (p : String) :
    (selectStep env S L p).forceIncludedFiles
      = L.forceIncludedFiles ++
        (if (decideOutcome env S p).forced = true
         then [env.relativeOf p] else []) := by
  simp only [selectStep, processPath, decideOutcome]
  by_cases hI : isIgnoredOf env S (env.relativeOf p) = true <;>
  by_cases hF : S.includeSet.contains p = true <;>
  simp only [hI, hF, Bool.not_true, Bool.not_false, Bool.and_true,
    Bool.and_false, Bool.true_and, Bool.false_and, if_true, if_false,
    Bool.and_self] <;>
  rcases hfind : S.gitignorePatterns.find?
      (fun pat => env.ignores pat (env.relativeOf p)) with _ | pat <;>
  rcases hd : env.statIsDir (env.resolveAbs p) with _ | b <;>
  (try cases b) <;>
  by_cases hb : env.isBinary (env.resolveAbs p) = true <;>
  rcases hr : env.readFile (env.resolveAbs p) with _ | c <;>
  simp [hfind, hd, hb, hr]

theorem selectStep_renderedFiles (env : Env) (S : Stores) (L : Ledger)
    (p : String) :
    (selectStep env S L p).renderedFiles
      = L.renderedFiles ++
        (if (decideOutcome env S p).primary = Primary.rendered
         then [env.relativeOf (env.resolveAbs p)] else []) := by
  simp only [selectStep, processPath, decideOutcome]
  by_cases hI : isIgnoredOf env S (env.relativeOf p) = true <;>
  by_cases hF : S.includeSet.contains p = true <;>
  simp only [hI, hF, Bool.not_true, Bool.not_false, Bool.and_true,
    Bool.and_false, Bool.true_and, Bool.false_and, if_true, if_false,
    Bool.and_self] <;>
  rcases hfind : S.gitignorePatterns.find?
      (fun pat => env.ignores pat (env.relativeOf p)) with _ | pat <;>
  rcases hd : env.statIsDir (env.resolveAbs p) with _ | b <;>
  (try cases b) <;>
  by_cases hb : env.isBinary (env.resolveAbs p) = true <;>
  rcases hr : env.readFile (env.resolveAbs p) with _ | c <;>
  simp [hfind, hd, hb, hr]

theorem countP_five {α : Type} (l : List α) (q1 q2 q3 q4 q5 : α → Bool)
    (h : ∀ x ∈ l, (q1 x).toNat + (q2 x).toNat + (q3 x).toNat
          + (q4 x).toNat + (q5 x).toNat = 1) :
    l.countP q1 + l.countP q2 + l.countP q3 + l.countP q4 + l.countP q5
      = l.length := by
  induction l with
  | nil => simp
  | cons x xs ih =>
    have hx := h x (by simp)
    have hxs := ih (fun y hy => h y (by simp [hy]))
    have hbn : ∀ b : Bool, (if b = true then 1 else 0) = b.toNat := by
      intro b; cases b <;> rfl
    simp only [List.countP_cons, List.length_cons, hbn]
    omega

theorem selectStep_readErrors (env : Env) (S : Stores) (L : Ledger)
    (p : String) :
    (selectStep env S L p).readErrors
      = L.readErrors ++
        (if (decideOutcome env S p).primary = Primary.fileError
         then [p] else []) := by
  simp only [selectStep, processPath, decideOutcome]
  by_cases hI : isIgnoredOf env S (env.relativeOf p) = true <;>
  by_cases hF : S.includeSet.contains p = true <;>
  simp only [hI, hF, Bool.not_true, Bool.not_false, Bool.and_true,
    Bool.and_false, Bool.true_and, Bool.false_and, if_true, if_false,
    Bool.and_self] <;>
  rcases hfind : S.gitignorePatterns.find?
      (fun pat => env.ignores pat (env.relativeOf p)) with _ | pat <;>
  rcases hd : env.statIsDir (env.resolveAbs p) with _ | b <;>
  (try cases b) <;>
  by_cases hb : env.isBinary (env.resolveAbs p) = true <;>
  rcases hr : env.readFile (env.resolveAbs p) with _ | c <;>
  simp [hfind, hd, hb, hr]

theorem foldl_skippedFiles (env : Env) (S : Stores) (cands : List String) :
    ∀ L : Ledger,
    (cands.foldl (selectStep env S) L).skippedFiles
      = L.skippedFiles ++
        ((cands.filter (fun p =>
            decide ((decideOutcome env S p).primary = Primary.skippedIgnored))).map
          env.relativeOf) := by
  induction cands with
  | nil => intro L; simp
  | cons p ps ih =>
    intro L
    rw [List.foldl_cons, ih, selectStep_skippedFiles]
    by_cases h : (decideOutcome env S p).primary = Primary.skippedIgnored <;>
      simp [h, List.filter_cons, List.append_assoc]

theorem foldl_skippedDirectories (env : Env) (S : Stores)
    (cands : List String) : ∀ L : Ledger,
    (cands.foldl (selectStep env S) L).skippedDirectories
      = L.skippedDirectories ++
        cands.filter (fun p =>
          decide ((decideOutcome env S p).primary = Primary.skippedDirectory)) := by
  induction cands with
  | nil => intro L; simp
  | cons p ps ih =>
    intro L
    rw [List.foldl_cons, ih, selectStep_skippedDirectories]
    by_cases h : (decideOutcome env S p).primary = Primary.skippedDirectory <;>
      simp [h, List.filter_cons, List.append_assoc]

theorem foldl_skippedBinaryFiles (env : Env) (S : Stores)
    (cands : List String) : ∀ L : Ledger,
    (cands.foldl (selectStep env S) L).skippedBinaryFiles
      = L.skippedBinaryFiles ++
        cands.filter (fun p =>
          decide ((decideOutcome env S p).primary = Primary.skippedBinary)) := by
  induction cands with
  | nil => intro L; simp
  | cons p ps ih =>
    intro L
    rw [List.foldl_cons, ih, selectStep_skippedBinaryFiles]
    by_cases h : (decideOutcome env S p).primary = Primary.skippedBinary <;>
      simp [h, List.filter_cons, List.append_assoc]

theorem foldl_forceIncludedFiles (env : Env) (S : Stores)
    (cands : List String) : ∀ L : Ledger,
    (cands.foldl (selectStep env S) L).forceIncludedFiles
      = L.forceIncludedFiles ++
        ((cands.filter (fun p =>
            decide ((decideOutcome env S p).forced = true))).map
          env.relativeOf) := by
  induction cands with
  | nil => intro L; simp
  | cons p ps ih =>
    intro L
    rw [List.foldl_cons, ih, selectStep_forceIncludedFiles]
    by_cases h : (decideOutcome env S p).forced = true <;>
      simp [h, List.filter_cons, List.append_assoc]

theorem foldl_renderedFiles (env : Env) (S : Stores)
    (cands : List String) : ∀ L : Ledger,
    (cands.foldl (selectStep env S) L).renderedFiles
      = L.renderedFiles ++
        ((cands.filter (fun p =>
            decide ((decideOutcome env S p).primary = Primary.rendered))).map
          (fun p => env.relativeOf (env.resolveAbs p))) := by
  induction cands with
  | nil => intro L; simp
  | cons p ps ih =>
    intro L
    rw [List.foldl_cons, ih, selectStep_renderedFiles]
    by_cases h : (decideOutcome env S p).primary = Primary.rendered <;>
      simp [h, List.filter_cons, List.append_assoc]

theorem foldl_readErrors (env : Env) (S : Stores)
    (cands : List String) : ∀ L : Ledger,
    (cands.foldl (selectStep env S) L).readErrors
      = L.readErrors ++
        cands.filter (fun p =>
          decide ((decideOutcome env S p).primary = Primary.fileError)) := by
  induction cands with
  | nil => intro L; simp
  | cons p ps ih =>
    intro L
    rw [List.foldl_cons, ih, selectStep_readErrors]
    by_cases h : (decideOutcome env S p).primary = Primary.fileError <;>
      simp [h, List.filter_cons, List.append_assoc]


def ledgerOf (r : Except String RunResult) : Ledger :=
  match r with
  | .ok v => v.ledger
  | .error _ => initLedger

def allFilesOf (r : Except String RunResult) : List String :=
  match r with
  | .ok v => v.allFiles
  | .error _ => []

def messagesOf (r : Except String RunResult) : List Msg :=
  match r with
  | .ok v => v.messages
  | .error _ => []

def writtenOf (r : Except String RunResult) : Option (String × String) :=
  match r with
  | .ok v => v.written
  | .error _ => none

def storesOf (r : Except String Stores) : Stores :=
  match r with
  | .ok v => v
  | .error _ => {}

/-- A run on a gitignored (`*.png`), force-included, binary candidate:
the file is recorded both as force-included and as a skipped binary. -/
def envBinForce : Env :=
  { readFile := fun f =>
      if f = (".gitignore") then some ("*.png") else some ("imgdata")
    statIsDir := fun _ => some false
    isBinary := fun _ => true
    ignores := fun c p => c = ("*.png") && p = ("a.png")
    expandGlob := fun a => if a = ("*.png") then [("a.png")] else []
    resolveAbs := fun p => p
    relativeOf := fun p => p
    fileExists := fun _ => false }

def cfgBinForce : Config :=
  { includeArg := [("*.png")], positionals := [("*.png")] }

/-- Claim C1 is false on the code: in the run of `envBinForce`/`cfgBinForce`
there is exactly one deduplicated candidate (`a.png`, gitignored,
force-included via `--include`, and binary), yet it receives two
Selection Outcomes — it is pushed to `forceIncludedFiles` *and* to
`skippedBinaryFiles` — so
`count(included) + count(force-included) + count(skipped-ignored) +
count(skipped-binary) + count(skipped-directory) = 2 ≠ 1 =
count(deduplicated candidates)`. -/
theorem C1_counterexample :
    allFilesOf (run envBinForce cfgBinForce) = [("a.png")]
    ∧ (ledgerOf (run envBinForce cfgBinForce)).forceIncludedFiles = [("a.png")]
    ∧ (ledgerOf (run envBinForce cfgBinForce)).skippedBinaryFiles = [("a.png")]
    ∧ plainIncludedCount envBinForce
        (storesOf (loadStores envBinForce cfgBinForce))
        (allFilesOf (run envBinForce cfgBinForce))
      + (ledgerOf (run envBinForce cfgBinForce)).forceIncludedFiles.length
      + (ledgerOf (run envBinForce cfgBinForce)).skippedFiles.length
      + (ledgerOf (run envBinForce cfgBinForce)).skippedBinaryFiles.length
      + (ledgerOf (run envBinForce cfgBinForce)).skippedDirectories.length
      = 2
    ∧ (allFilesOf (run envBinForce cfgBinForce)).length = 1 :=
  ⟨rfl, rfl, rfl, rfl, rfl⟩

/-- Claim C1 (amended): each deduplicated candidate receives exactly one
primary fate, and the claimed count equation
`count(included) + count(force-included) + count(skipped-ignored) +
count(skipped-binary) + count(skipped-directory) =
count(deduplicated candidates)` holds provided no candidate hits a
per-file read error and every force-included candidate is actually
rendered (i.e. is not also a directory or a binary file — in that case
the source double-counts it, as the counterexample shows). -/
theorem C1_partition (env : Env) (S : Stores) (cands : List String)
    (hNoErr : ∀ p ∈ cands,
      (decideOutcome env S p).primary ≠ Primary.fileError)
    (hForced : ∀ p ∈ cands, (decideOutcome env S p).forced = true →
      (decideOutcome env S p).primary = Primary.rendered) :
    plainIncludedCount env S cands
      + (foldSelect env S cands).forceIncludedFiles.length
      + (foldSelect env S cands).skippedFiles.length
      + (foldSelect env S cands).skippedBinaryFiles.length
      + (foldSelect env S cands).skippedDirectories.length
    = cands.length := by
  have l2 : (foldSelect env S cands).forceIncludedFiles.length
      = cands.countP (fun p => decide ((decideOutcome env S p).forced = true)) := by
    rw [foldSelect, foldl_forceIncludedFiles]
    simp [initLedger, List.countP_eq_length_filter]
  have l3 : (foldSelect env S cands).skippedFiles.length
      = cands.countP (fun p =>
          decide ((decideOutcome env S p).primary = Primary.skippedIgnored)) := by
    rw [foldSelect, foldl_skippedFiles]
    simp [initLedger, List.countP_eq_length_filter]
  have l4 : (foldSelect env S cands).skippedBinaryFiles.length
      = cands.countP (fun p =>
          decide ((decideOutcome env S p).primary = Primary.skippedBinary)) := by
    rw [foldSelect, foldl_skippedBinaryFiles]
    simp [initLedger, List.countP_eq_length_filter]
  have l5 : (foldSelect env S cands).skippedDirectories.length
      = cands.countP (fun p =>
          decide ((decideOutcome env S p).primary = Primary.skippedDirectory)) := by
    rw [foldSelect, foldl_skippedDirectories]
    simp [initLedger, List.countP_eq_length_filter]
  rw [plainIncludedCount, l2, l3, l4, l5]
  apply countP_five
  intro x hx
  have h1 := hNoErr x hx
  have h2 := hForced x hx
  rcases hdo : decideOutcome env S x with ⟨prim, fc⟩
  simp only [hdo] at h1 h2 ⊢
  cases prim <;> cases fc <;> simp_all

/-- One readable plain text candidate, nothing ignored. -/
def envPlain : Env :=
  { readFile := fun _ => some ("text")
    statIsDir := fun _ => some false
    isBinary := fun _ => false
    ignores := fun _ _ => false
    expandGlob := fun a => [a]
    resolveAbs := fun p => p
    relativeOf := fun p => p
    fileExists := fun _ => false }

/-- Witness for the amended C1 at a concrete input. -/
theorem C1_partition_witness :
    plainIncludedCount envPlain {} [("a.txt")]
      + (foldSelect envPlain {} [("a.txt")]).forceIncludedFiles.length
      + (foldSelect envPlain {} [("a.txt")]).skippedFiles.length
      + (foldSelect envPlain {} [("a.txt")]).skippedBinaryFiles.length
      + (foldSelect envPlain {} [("a.txt")]).skippedDirectories.length
    = 1 :=
  C1_partition envPlain {} [("a.txt")] (by decide) (by decide)

def cfgBinIgnored : Config := { positionals := [("*.png")] }

/-- Claim C2 is false on the code: in the run of `envBinForce`/`cfgBinIgnored`
the only candidate `a.png` is both binary (content-based detection
reports true) and matched by the loaded ignore rule `*.png`, yet its
outcome is `skipped-ignored` — it lands in `skippedFiles`, not in
`skippedBinaryFiles` — because the source evaluates the ignore check
before ever calling `processPath`, where the directory and binary checks
live. -/
theorem C2_counterexample :
    envBinForce.isBinary ("a.png") = true
    ∧ isIgnoredOf envBinForce
        (storesOf (loadStores envBinForce cfgBinIgnored)) ("a.png") = true
    ∧ (ledgerOf (run envBinForce cfgBinIgnored)).skippedFiles = [("a.png")]
    ∧ (ledgerOf (run envBinForce cfgBinIgnored)).skippedBinaryFiles = [] := by
  refine ⟨rfl, rfl, ?_, ?_⟩ <;> decide

/-- Claim C2 (amended): the selection decision is evaluated with the
ignore/override gate FIRST — an ignore-matched, non-overridden candidate
has outcome `skipped-ignored` regardless of directory or binary status —
and only candidates passing that gate are checked for directory-ness and
then for content-based binary-ness, in that order.  Hence a candidate
that is both binary and matched by an ignore rule (and not
force-included) has outcome `skipped-ignored`, never `skipped-binary`. -/
theorem C2_precedence (env : Env) (S : Stores) (p : String) :
    (isIgnoredOf env S (env.relativeOf p) = true →
      S.includeSet.contains p = false →
      (decideOutcome env S p).primary = Primary.skippedIgnored)
    ∧ ((isIgnoredOf env S (env.relativeOf p) = false
          ∨ S.includeSet.contains p = true) →
        (env.statIsDir (env.resolveAbs p) = some true →
          (decideOutcome env S p).primary = Primary.skippedDirectory)
        ∧ (env.statIsDir (env.resolveAbs p) = some false →
            env.isBinary (env.resolveAbs p) = true →
            (decideOutcome env S p).primary = Primary.skippedBinary)) := by
  constructor
  · intro hI hF
    have hF' : p ∉ S.includeSet := by simpa using hF
    simp [decideOutcome, hI, hF']
  · intro hgate
    rcases hgate with h | h
    · constructor
      · intro hd
        simp [decideOutcome, h, hd]
      · intro hd hb
        simp [decideOutcome, h, hd, hb]
    · have h' : p ∈ S.includeSet := by simpa using h
      constructor
      · intro hd
        simp [decideOutcome, h', hd]
      · intro hd hb
        simp [decideOutcome, h', hd, hb]

/-- Witness for the amended C2 at a concrete input: the binary,
gitignored, non-overridden candidate of the counterexample run is
decided `skipped-ignored`. -/
theorem C2_precedence_witness :
    (decideOutcome envBinForce
      (storesOf (loadStores envBinForce cfgBinIgnored)) ("a.png")).primary
    = Primary.skippedIgnored :=
  (C2_precedence envBinForce
    (storesOf (loadStores envBinForce cfgBinIgnored)) ("a.png")).1
    (by decide) (by decide)

/-- A binary file matched only by an include-override pattern. -/
def envBinOverride : Env :=
  { readFile := fun _ => some ("data")
    statIsDir := fun _ => some false
    isBinary := fun _ => true
    ignores := fun _ _ => false
    expandGlob := fun a => if a = ("b.bin") then [("b.bin")] else []
    resolveAbs := fun p => p
    relativeOf := fun p => p
    fileExists := fun _ => false }

def cfgBinOverride : Config :=
  { includeArg := [("b.bin")], positionals := [("b.bin")],
    noGitignore := true }

/-- Claim C3 is false on the code: in the run of
`envBinOverride`/`cfgBinOverride` the only candidate `b.bin` is in the
Include-Override Set and matches no ignore rule, so the claim says its
outcome is plain `included`; but the file is binary, so the code skips
it as `skipped-binary` (nothing is rendered and nothing is
force-included). -/
theorem C3_counterexample :
    (storesOf (loadStores envBinOverride cfgBinOverride)).includeSet.contains
        ("b.bin") = true
    ∧ isIgnoredOf envBinOverride
        (storesOf (loadStores envBinOverride cfgBinOverride)) ("b.bin") = false
    ∧ (ledgerOf (run envBinOverride cfgBinOverride)).skippedBinaryFiles
        = [("b.bin")]
    ∧ (ledgerOf (run envBinOverride cfgBinOverride)).renderedFiles = []
    ∧ (ledgerOf (run envBinOverride cfgBinOverride)).forceIncludedFiles = [] :=
  ⟨rfl, rfl, rfl, rfl, rfl⟩

/-- Claim C3 (amended): a candidate in the Include-Override Set is never
`skipped-ignored`; and when it is a readable, non-directory, non-binary
file, its outcome is `force-included` exactly when it matches a loaded
ignore rule, plain `included` otherwise.  (A directory, binary or
unreadable override candidate is still skipped by `processPath`, as the
counterexample shows.) -/
theorem C3_override (env : Env) (S : Stores) (p : String)
    (hMem : S.includeSet.contains p = true) :
    (decideOutcome env S p).primary ≠ Primary.skippedIgnored
    ∧ (env.statIsDir (env.resolveAbs p) = some false →
       env.isBinary (env.resolveAbs p) = false →
       env.readFile (env.resolveAbs p) ≠ none →
        (isIgnoredOf env S (env.relativeOf p) = true →
          decideOutcome env S p = ⟨Primary.rendered, true⟩)
        ∧ (isIgnoredOf env S (env.relativeOf p) = false →
          decideOutcome env S p = ⟨Primary.rendered, false⟩)) := by
  have hM : p ∈ S.includeSet := by simpa using hMem
  constructor
  · rcases hd : env.statIsDir (env.resolveAbs p) with _ | b <;>
    (try cases b) <;>
    by_cases hb : env.isBinary (env.resolveAbs p) = true <;>
    rcases hr : env.readFile (env.resolveAbs p) with _ | c <;>
    simp [decideOutcome, hM, hd, hb, hr]
  · intro hd hb hr
    rcases hrf : env.readFile (env.resolveAbs p) with _ | c
    · exact absurd hrf hr
    constructor <;> intro hI <;>
      simp [decideOutcome, hM, hI, hd, hb, hrf]

/-- Witness for the amended C3 at a concrete input: an override-set
candidate that is a readable plain file is never `skipped-ignored`, and
(not being ignore-matched) is plain-included. -/
theorem C3_override_witness :
    (decideOutcome envPlain { includeSet := [("a.txt")] } ("a.txt")).primary
        ≠ Primary.skippedIgnored
    ∧ decideOutcome envPlain { includeSet := [("a.txt")] } ("a.txt")
        = ⟨Primary.rendered, false⟩ :=
  ⟨(C3_override envPlain { includeSet := [("a.txt")] } ("a.txt")
      (by decide)).1,
   ((C3_override envPlain { includeSet := [("a.txt")] } ("a.txt")
      (by decide)).2 (by decide) (by decide) (by decide)).2 (by decide)⟩

/-- Claim C4: for every skipped-ignored candidate, the attribution loop
iterates the merged raw pattern list — repository ignore patterns first,
then the custom files' patterns in load order — testing each pattern as
a single-pattern matcher; the ledger entry of the first matching pattern
is bumped, and when no single pattern matches the ledger is untouched
while the file is still appended to the aggregate `skippedFiles` list. -/
theorem C4_attribution (env : Env) (cfg : Config) (S : Stores) (L : Ledger)
    (p : String)
    (hS : loadStores env cfg = .ok S)
    (hIgn : isIgnoredOf env S (env.relativeOf p) = true)
    (hNF : S.includeSet.contains p = false) :
    S.gitignorePatterns
      = (if cfg.noGitignore then [] else (readGitignore env).2)
        ++ (S.customs.map (fun r => r.2)).flatten
    ∧ (selectStep env S L p).skippedFiles
        = L.skippedFiles ++ [env.relativeOf p]
    ∧ (∀ pat, S.gitignorePatterns.find?
          (fun q => env.ignores q (env.relativeOf p)) = some pat →
        env.ignores pat (env.relativeOf p) = true
        ∧ pat ∈ S.gitignorePatterns
        ∧ (selectStep env S L p).skippedPatterns = bump L.skippedPatterns pat)
    ∧ (S.gitignorePatterns.find?
          (fun q => env.ignores q (env.relativeOf p)) = none →
        (selectStep env S L p).skippedPatterns = L.skippedPatterns) := by
  have hd : decideOutcome env S p = ⟨Primary.skippedIgnored, false⟩ := by
    have hF' : p ∉ S.includeSet := by simpa using hNF
    simp [decideOutcome, hIgn, hF']
  refine ⟨?_, ?_, ?_, ?_⟩
  · rcases hrc : readIgnoreFiles env cfg.ignoreFile with e | customs
    · simp [loadStores, hrc] at hS
    · simp only [loadStores, hrc] at hS
      have h := Except.ok.inj hS
      subst h
      by_cases hng : cfg.noGitignore <;> simp [hng]
  · rw [selectStep_skippedFiles, hd]
    simp
  · intro pat hfind
    refine ⟨?_, List.mem_of_find?_eq_some hfind, ?_⟩
    · have h1 := List.find?_some hfind
      simpa using h1
    · simp only [selectStep, hIgn, hNF, Bool.not_false, Bool.and_true,
        if_true, hfind]
  · intro hfind
    simp only [selectStep, hIgn, hNF, Bool.not_false, Bool.and_true,
      if_true, hfind]

def storesBinIgnored : Stores :=
  storesOf (loadStores envBinForce cfgBinIgnored)

/-- Witness for C4 at a concrete input: the skipped `a.png` of the
`envBinForce`/`cfgBinIgnored` run is attributed to the first matching
pattern `*.png`. -/
theorem C4_attribution_witness :
    (selectStep envBinForce storesBinIgnored initLedger ("a.png")).skippedFiles
      = initLedger.skippedFiles ++ [envBinForce.relativeOf ("a.png")]
    ∧ (selectStep envBinForce storesBinIgnored initLedger
        ("a.png")).skippedPatterns
      = bump initLedger.skippedPatterns ("*.png") :=
  ⟨(C4_attribution envBinForce cfgBinIgnored storesBinIgnored initLedger
      ("a.png") rfl (by decide) (by decide)).2.1,
   ((C4_attribution envBinForce cfgBinIgnored storesBinIgnored initLedger
      ("a.png") rfl (by decide) (by decide)).2.2.1 ("*.png")
      (by decide)).2.2⟩

theorem readIgnoreFiles_error_of_missing (env : Env) :
    ∀ (fs : List String) (f : String), f ∈ fs → env.readFile f = none →
    ∃ e, readIgnoreFiles env fs = Except.error e := by
  intro fs
  induction fs with
  | nil => intro f hf; simp at hf
  | cons g gs ih =>
    intro f hf hnone
    rcases List.mem_cons.mp hf with h | h
    · subst h
      exact ⟨(("Error reading ignore file ") ++ f),
        by simp [readIgnoreFiles, readIgnoreFile, hnone]⟩
    · rcases hg : readIgnoreFile env g with e | r
      · exact ⟨e, by simp [readIgnoreFiles, hg]⟩
      · rcases ih f h hnone with ⟨e, he⟩
        exact ⟨e, by simp [readIgnoreFiles, hg, he]⟩

/-- Claim C5: a missing repository ignore file (`.gitignore`) yields the empty
pattern set and the empty matcher with no error, while a missing named
custom ignore file is a fatal error — `readIgnoreFile` returns the
descriptive error, and the whole run aborts with exit code 1. -/
theorem C5_missing_ignore_files (env : Env) (cfg : Config) :
    (env.readFile (".gitignore") = none → readGitignore env = (none, []))
    ∧ (∀ f, env.readFile f = none →
        readIgnoreFile env f
          = .error ((("Error reading ignore file ") ++ f)))
    ∧ (∀ f, f ∈ cfg.ignoreFile → env.readFile f = none →
        (∃ e, run env cfg = .error e) ∧ exitCode (run env cfg) = 1) := by
  refine ⟨?_, ?_, ?_⟩
  · intro h
    simp [readGitignore, h]
  · intro f h
    simp [readIgnoreFile, h]
  · intro f hf hnone
    obtain ⟨e, he⟩ :=
      readIgnoreFiles_error_of_missing env cfg.ignoreFile f hf hnone
    have hrun : run env cfg = .error e := by
      simp [run, loadStores, he]
    exact ⟨⟨e, hrun⟩, by rw [hrun]; rfl⟩

/-- An environment where every file read fails. -/
def envMissing : Env :=
  { readFile := fun _ => none
    statIsDir := fun _ => none
    isBinary := fun _ => false
    ignores := fun _ _ => false
    expandGlob := fun _ => []
    resolveAbs := fun p => p
    relativeOf := fun p => p
    fileExists := fun _ => false }

def cfgMissing : Config :=
  { ignoreFile := [("custom.ignore")], positionals := [("a.txt")] }

/-- Witness for C5 at a concrete input. -/
theorem C5_missing_ignore_files_witness :
    readGitignore envMissing = (none, [])
    ∧ (∃ e, run envMissing cfgMissing = .error e)
    ∧ exitCode (run envMissing cfgMissing) = 1 :=
  ⟨(C5_missing_ignore_files envMissing cfgMissing).1 rfl,
   ((C5_missing_ignore_files envMissing cfgMissing).2.2 ("custom.ignore")
      (by decide) rfl).1,
   ((C5_missing_ignore_files envMissing cfgMissing).2.2 ("custom.ignore")
      (by decide) rfl).2⟩

/-- No candidate matches the (non-empty) argument list. -/
def envNoMatch : Env :=
  { readFile := fun _ => none
    statIsDir := fun _ => none
    isBinary := fun _ => false
    ignores := fun _ _ => false
    expandGlob := fun _ => []
    resolveAbs := fun p => p
    relativeOf := fun p => p
    fileExists := fun _ => false }

def cfgQuietNoMatch : Config :=
  { quiet := true, positionals := [("nope.txt")] }

/-- Claim C6 is false on the code: with quiet mode enabled and a non-empty
argument list that resolves to no files, the zero-candidates advisory
("No files matched") is still emitted — the `console.warn` at
src/index.js line 176 is not gated by `values.quiet`. -/
theorem C6_counterexample :
    cfgQuietNoMatch.quiet = true
    ∧ cfgQuietNoMatch.positionals ≠ []
    ∧ allFilesOf (run envNoMatch cfgQuietNoMatch) = []
    ∧ messagesOf (run envNoMatch cfgQuietNoMatch) = [Msg.noFilesMatched] := by
  refine ⟨rfl, by decide, ?_, ?_⟩ <;> decide

/-- Claim C6 (amended): with quiet mode enabled, the skip and force-include
warnings (directories, binaries, force-included, gitignore-skips) are
all suppressed — the only message a successful quiet run can emit is the
zero-candidates advisory, which is NOT gated by quiet — and the fatal
errors are surfaced identically with and without quiet. -/
theorem C6_quiet (env : Env) (cfg : Config) :
    (∀ r, cfg.quiet = true → run env cfg = .ok r →
      r.messages = [] ∨ r.messages = [Msg.noFilesMatched])
    ∧ (∀ e, run env { cfg with quiet := true } = .error e
        ↔ run env cfg = .error e) := by
  constructor
  · intro r hq hr
    rcases hls : loadStores env cfg with e | S
    · simp [run, hls] at hr
    · rcases ho : cfg.output with _ | outPath
      · simp only [run, hls, ho, Except.ok.injEq] at hr
        subst hr
        rcases hpos : cfg.positionals with _ | ⟨a, as⟩
        · left
          simp [buildMessages, hq, hpos]
        · by_cases hc : resolveArgs env (a :: as) = []
          · right
            simp [buildMessages, hq, hpos, hc]
          · left
            simp [buildMessages, hq, hpos, hc]
      · simp only [run, hls, ho] at hr
        by_cases hx : (env.fileExists outPath && !cfg.force) = true
        · rw [if_pos hx] at hr
          exact absurd hr (by simp)
        · rw [if_neg hx] at hr
          have hr2 := Except.ok.inj hr
          subst hr2
          rcases hpos : cfg.positionals with _ | ⟨a, as⟩
          · left
            simp [buildMessages, hq, hpos]
          · by_cases hc : resolveArgs env (a :: as) = []
            · right
              simp [buildMessages, hq, hpos, hc]
            · left
              simp [buildMessages, hq, hpos, hc]
  · intro e
    rcases cfg with ⟨o, f, ng, ia, igf, q, pos⟩
    have hlq : loadStores env
        { output := o, force := f, noGitignore := ng, includeArg := ia,
          ignoreFile := igf, quiet := true, positionals := pos }
        = loadStores env
        { output := o, force := f, noGitignore := ng, includeArg := ia,
          ignoreFile := igf, quiet := q, positionals := pos } := rfl
    rcases hq2 : loadStores env
        { output := o, force := f, noGitignore := ng, includeArg := ia,
          ignoreFile := igf, quiet := q, positionals := pos }
        with e2 | S
    · simp [run, hlq, hq2]
    · rcases o with _ | outPath
      · simp [run, hlq, hq2]
      · simp only [run, hlq, hq2]
        by_cases hx : (env.fileExists outPath && !f) = true
        · rw [if_pos hx, if_pos hx]
        · rw [if_neg hx, if_neg hx]
          simp

/-- Witness for the amended C6 at a concrete input: the quiet run that
matched no files emits exactly the zero-candidates advisory. -/
theorem C6_quiet_witness :
    messagesOf (run envNoMatch cfgQuietNoMatch) = []
    ∨ messagesOf (run envNoMatch cfgQuietNoMatch) = [Msg.noFilesMatched] :=
  (C6_quiet envNoMatch cfgQuietNoMatch).1
    { ledger := initLedger, allFiles := [], messages := [Msg.noFilesMatched], written := none }
    rfl rfl

theorem mem_dedupFirst (x : String) : ∀ l, x ∈ dedupFirst l ↔ x ∈ l := by
  intro l
  induction l with
  | nil => simp [dedupFirst]
  | cons a as ih =>
    simp only [dedupFirst, List.mem_cons, List.mem_filter]
    constructor
    · rintro (rfl | ⟨h1, _⟩)
      · exact Or.inl rfl
      · exact Or.inr (ih.mp h1)
    · rintro (rfl | h)
      · exact Or.inl rfl
      · by_cases hx : x = a
        · exact Or.inl hx
        · exact Or.inr ⟨ih.mpr h, by simp [hx]⟩

theorem nodup_dedupFirst : ∀ l, (dedupFirst l).Nodup := by
  intro l
  induction l with
  | nil => simp [dedupFirst]
  | cons a as ih =>
    simp only [dedupFirst, List.nodup_cons]
    refine ⟨?_, ih.filter _⟩
    intro hmem
    rw [List.mem_filter] at hmem
    exact absurd hmem.2 (by simp)

theorem dedupFirst_sublist : ∀ l, List.Sublist (dedupFirst l) l := by
  intro l
  induction l with
  | nil => simp [dedupFirst]
  | cons a as ih =>
    exact List.Sublist.cons₂ a ((List.filter_sublist _).trans ih)

theorem indexOf_filter_lt (q : String → Bool) :
    ∀ (l : List String) (a b : String), q a = true → q b = true →
      a ∈ l → l.indexOf a < l.indexOf b →
      (l.filter q).indexOf a < (l.filter q).indexOf b := by
  intro l
  induction l with
  | nil => intro a b _ _ ha; simp at ha
  | cons y ys ih =>
    intro a b hqa hqb ha hlt
    by_cases hya : y = a
    · subst hya
      have hba : b ≠ y := by
        intro h
        subst h
        simp [List.indexOf_cons_self] at hlt
      rw [List.filter_cons_of_pos hqa]
      rw [List.indexOf_cons_self]
      have : (y :: (ys.filter q)).indexOf b ≠ 0 := by
        intro h0
        have hby : b = y := by
          by_contra hne
          rw [List.indexOf_cons_ne _ (by simpa using Ne.symm hne)] at h0
          omega
        exact hba hby
      omega
    · by_cases hyb : y = b
      · subst hyb
        rw [List.indexOf_cons_self] at hlt
        omega
      · have ha2 : a ∈ ys := by
          rcases List.mem_cons.mp ha with h | h
          · exact absurd h.symm hya
          · exact h
        have hlt2 : ys.indexOf a < ys.indexOf b := by
          rw [List.indexOf_cons_ne _ hya, List.indexOf_cons_ne _ hyb] at hlt
          omega
        by_cases hqy : q y = true
        · rw [List.filter_cons_of_pos hqy]
          rw [List.indexOf_cons_ne _ hya, List.indexOf_cons_ne _ hyb]
          have := ih a b hqa hqb ha2 hlt2
          omega
        · rw [List.filter_cons_of_neg (by simpa using hqy)]
          exact ih a b hqa hqb ha2 hlt2

theorem dedupFirst_indexOf_lt :
    ∀ (l : List String) (a b : String), a ∈ l → b ∈ l →
      l.indexOf a < l.indexOf b →
      (dedupFirst l).indexOf a < (dedupFirst l).indexOf b := by
  intro l
  induction l with
  | nil => intro a b ha; simp at ha
  | cons y ys ih =>
    intro a b ha hb hlt
    by_cases hay : a = y
    · subst hay
      have hba : b ≠ a := by
        intro h
        subst h
        omega
      simp only [dedupFirst]
      rw [List.indexOf_cons_self]
      have : (a :: ((dedupFirst ys).filter (fun z => z ≠ a))).indexOf b ≠ 0 := by
        intro h0
        have hby : b = a := by
          by_contra hne
          rw [List.indexOf_cons_ne _ (by simpa using Ne.symm hne)] at h0
          omega
        exact hba hby
      omega
    · by_cases hby : b = y
      · subst hby
        rw [List.indexOf_cons_self] at hlt
        omega
      · have ha2 : a ∈ ys := by
          rcases List.mem_cons.mp ha with h | h
          · exact absurd h hay
          · exact h
        have hb2 : b ∈ ys := by
          rcases List.mem_cons.mp hb with h | h
          · exact absurd h hby
          · exact h
        have hlt2 : ys.indexOf a < ys.indexOf b := by
          rw [List.indexOf_cons_ne _ (by simpa using Ne.symm hay),
            List.indexOf_cons_ne _ (by simpa using Ne.symm hby)] at hlt
          omega
        have hrec := ih a b ha2 hb2 hlt2
        have hfil := indexOf_filter_lt (fun z => decide (z ≠ y))
          (dedupFirst ys) a b (by simpa using hay) (by simpa using hby)
          ((mem_dedupFirst a ys).mpr ha2) hrec
        simp only [dedupFirst]
        rw [List.indexOf_cons_ne _ (by simpa using Ne.symm hay),
          List.indexOf_cons_ne _ (by simpa using Ne.symm hby)]
        omega

/-- Two overlapping glob arguments both matching `a.txt`. -/
def envTwoGlobs : Env :=
  { readFile := fun _ => some ("text")
    statIsDir := fun _ => some false
    isBinary := fun _ => false
    ignores := fun _ _ => false
    expandGlob := fun a =>
      if a = ("*.txt") then [("a.txt"), ("b.txt")]
      else if a = ("a*") then [("a.txt")] else []
    resolveAbs := fun p => p
    relativeOf := fun p => p
    fileExists := fun _ => false }

/-- Claim C7: the File Resolver returns a deduplicated list of absolute file
paths in first-occurrence order across arguments — no duplicates, same
membership as the concatenated per-argument expansions, an
order-preserving sublist of them, and relative order governed by first
occurrence — and the selection loop preserves that order into the final
rendering with no sorting: the rendered list is an order-preserving
filter of the candidate list. -/
theorem C7_resolver (env : Env) (args : List String) :
    (resolveArgs env args).Nodup
    ∧ (∀ p, p ∈ resolveArgs env args ↔
        p ∈ ((args.map
          (fun a => (env.expandGlob a).map env.resolveAbs)).flatten))
    ∧ List.Sublist (resolveArgs env args)
        ((args.map (fun a => (env.expandGlob a).map env.resolveAbs)).flatten)
    ∧ (∀ a b,
        a ∈ ((args.map
          (fun x => (env.expandGlob x).map env.resolveAbs)).flatten) →
        b ∈ ((args.map
          (fun x => (env.expandGlob x).map env.resolveAbs)).flatten) →
        ((args.map
          (fun x => (env.expandGlob x).map env.resolveAbs)).flatten).indexOf a
          < ((args.map
            (fun x => (env.expandGlob x).map env.resolveAbs)).flatten).indexOf b →
        (resolveArgs env args).indexOf a < (resolveArgs env args).indexOf b)
    ∧ (∀ (S : Stores) (cands : List String),
        (foldSelect env S cands).renderedFiles
          = ((cands.filter (fun p =>
              decide ((decideOutcome env S p).primary = Primary.rendered))).map
            (fun p => env.relativeOf (env.resolveAbs p)))) := by
  refine ⟨nodup_dedupFirst _, fun p => mem_dedupFirst p _,
    dedupFirst_sublist _, fun a b => dedupFirst_indexOf_lt _ a b, ?_⟩
  intro S cands
  rw [foldSelect, foldl_renderedFiles]
  simp [initLedger]

/-- Witness for C7 at a concrete input: with overlapping globs `*.txt`
and `a*`, the file `a.txt` appears in the resolved list exactly once,
at the position of its first match (before `b.txt`). -/
theorem C7_resolver_witness :
    resolveArgs envTwoGlobs [("*.txt"), ("a*")] = [("a.txt"), ("b.txt")]
    ∧ (resolveArgs envTwoGlobs [("*.txt"), ("a*")]).indexOf ("a.txt")
        < (resolveArgs envTwoGlobs [("*.txt"), ("a*")]).indexOf ("b.txt") :=
  ⟨by decide,
   (C7_resolver envTwoGlobs [("*.txt"), ("a*")]).2.2.2.1 ("a.txt") ("b.txt")
     (by decide) (by decide) (by decide)⟩

/-- Claim C8: when the output path already exists and the force flag is not
set, the run fails with a fatal error, the exit code is non-zero, and no
output file is written; when the loading phase succeeded, the error is
exactly the output-exists message. -/
theorem C8_output_exists (env : Env) (cfg : Config) (outPath : String)
    (hOut : cfg.output = some outPath)
    (hEx : env.fileExists outPath = true)
    (hF : cfg.force = false) :
    (∃ e, run env cfg = .error e)
    ∧ writtenOf (run env cfg) = none
    ∧ exitCode (run env cfg) = 1
    ∧ (∀ S, loadStores env cfg = .ok S →
        run env cfg = .error
          (("Error: Output file already exists. Use -f or --force to overwrite."))) := by
  rcases hls : loadStores env cfg with e | S
  · refine ⟨⟨e, by simp [run, hls]⟩, by simp [writtenOf, run, hls],
      by simp [exitCode, run, hls], ?_⟩
    intro S2 hS2
    exact absurd hS2 (by simp)
  · have hrun : run env cfg = .error
        (("Error: Output file already exists. Use -f or --force to overwrite.")) := by
      simp [run, hls, hOut, hEx, hF]
    exact ⟨⟨_, hrun⟩, by simp [writtenOf, hrun], by simp [exitCode, hrun],
      fun _ _ => hrun⟩

/-- Everything readable, but the output path is already taken. -/
def envOutTaken : Env :=
  { readFile := fun _ => some ("text")
    statIsDir := fun _ => some false
    isBinary := fun _ => false
    ignores := fun _ _ => false
    expandGlob := fun a => [a]
    resolveAbs := fun p => p
    relativeOf := fun p => p
    fileExists := fun _ => true }

def cfgOutTaken : Config :=
  { output := some ("out.md"), positionals := [("a.txt")] }

/-- Witness for C8 at a concrete input. -/
theorem C8_output_exists_witness :
    (∃ e, run envOutTaken cfgOutTaken = .error e)
    ∧ writtenOf (run envOutTaken cfgOutTaken) = none
    ∧ exitCode (run envOutTaken cfgOutTaken) = 1
    ∧ (∀ S, loadStores envOutTaken cfgOutTaken = .ok S →
        run envOutTaken cfgOutTaken = .error
          (("Error: Output file already exists. Use -f or --force to overwrite."))) :=
  C8_output_exists envOutTaken cfgOutTaken ("out.md") rfl rfl rfl

/-- Claim C9: with the no-gitignore flag set, the repository matcher is
disabled (`gitM = none`) but the named custom ignore files are still
loaded exactly as without the flag, and a candidate whose relative path
matches a loaded custom matcher (and is not force-included) is still
decided `skipped-ignored`. -/
theorem C9_no_gitignore (env : Env) (cfg : Config) (S : Stores)
    (hng : cfg.noGitignore = true)
    (hS : loadStores env cfg = .ok S) :
    S.gitM = none
    ∧ readIgnoreFiles env cfg.ignoreFile = .ok S.customs
    ∧ (∀ entry, entry ∈ S.customs → ∀ p,
        env.ignores entry.1 (env.relativeOf p) = true →
        S.includeSet.contains p = false →
        (decideOutcome env S p).primary = Primary.skippedIgnored) := by
  rcases hrc : readIgnoreFiles env cfg.ignoreFile with e | customs
  · simp [loadStores, hrc] at hS
  · simp only [loadStores, hrc] at hS
    have h := Except.ok.inj hS
    subst h
    refine ⟨by simp [hng], by simp [hrc], ?_⟩
    intro entry hmem p hig hnc
    have hany : customs.any (fun e => env.ignores e.1 (env.relativeOf p))
        = true :=
      List.any_eq_true.mpr ⟨entry, hmem, hig⟩
    have hnc' : p ∉ includeFilesOf env cfg.includeArg := by
      simpa using hnc
    simp [decideOutcome, isIgnoredOf, hng, hany, hnc']

/-- A custom ignore file `ci.txt` holding the pattern `*.log`, with the
repository ignore file disabled. -/
def envCustom : Env :=
  { readFile := fun f => if f = ("ci.txt") then some ("*.log") else none
    statIsDir := fun _ => some false
    isBinary := fun _ => false
    ignores := fun c p => c = ("*.log") && p = ("a.log")
    expandGlob := fun a => if a = ("a.log") then [("a.log")] else []
    resolveAbs := fun p => p
    relativeOf := fun p => p
    fileExists := fun _ => false }

def cfgCustom : Config :=
  { noGitignore := true, ignoreFile := [("ci.txt")],
    positionals := [("a.log")] }

/-- Witness for C9 at a concrete input: under `--no-gitignore`, a file
matching only a custom ignore pattern is still skipped-ignored. -/
theorem C9_no_gitignore_witness :
    (storesOf (loadStores envCustom cfgCustom)).gitM = none
    ∧ (decideOutcome envCustom (storesOf (loadStores envCustom cfgCustom))
        ("a.log")).primary = Primary.skippedIgnored :=
  ⟨(C9_no_gitignore envCustom cfgCustom
      (storesOf (loadStores envCustom cfgCustom)) rfl rfl).1,
   (C9_no_gitignore envCustom cfgCustom
      (storesOf (loadStores envCustom cfgCustom)) rfl rfl).2.2
     ((("*.log"), [("*.log")])) (by decide) ("a.log") (by decide) (by decide)⟩

theorem splitChar_ne_nil (sep : Char) : ∀ l, splitChar sep l ≠ [] := by
  intro l
  cases l with
  | nil => simp [splitChar]
  | cons c cs =>
    by_cases h : c = sep
    · simp [splitChar, h]
    · rcases hs : splitChar sep cs with _ | ⟨r, rs⟩ <;> simp [splitChar, h, hs]

theorem splitChar_append_sep (sep : Char) :
    ∀ xs : List Char,
      splitChar sep (xs ++ [sep]) = splitChar sep xs ++ [[]] := by
  intro xs
  induction xs with
  | nil => simp [splitChar]
  | cons c cs ih =>
    by_cases h : c = sep
    · simp [splitChar, h, ih]
    · have hne := splitChar_ne_nil sep cs
      rcases hs : splitChar sep cs with _ | ⟨r, rs⟩
      · exact absurd hs hne
      · simp [splitChar, h, ih, hs]

theorem splitChar_single_of_not_mem (sep : Char) :
    ∀ t : List Char, sep ∉ t → splitChar sep t = [t] := by
  intro t
  induction t with
  | nil => intro _; simp [splitChar]
  | cons c cs ih =>
    intro hm
    have hc : ¬(c = sep) := fun h => hm (by simp [h])
    have hcs : sep ∉ cs := fun h => hm (List.mem_cons_of_mem _ h)
    simp [splitChar, hc, ih hcs]

theorem splitChar_tail_of_mem (sep : Char) :
    ∀ t : List Char, sep ∈ t →
      ∃ r rs, splitChar sep t = r :: rs ∧ rs ≠ [] := by
  intro t
  induction t with
  | nil => intro h; simp at h
  | cons c cs ih =>
    intro hm
    by_cases hc : c = sep
    · exact ⟨[], splitChar sep cs, by simp [splitChar, hc],
        splitChar_ne_nil sep cs⟩
    · have hcs : sep ∈ cs := by
        rcases List.mem_cons.mp hm with h | h
        · exact absurd h.symm hc
        · exact h
      obtain ⟨r, rs, hs, hrs⟩ := ih hcs
      exact ⟨c :: r, rs, by simp [splitChar, hc, hs], hrs⟩

theorem extOf_cons_dot (t : List Char) : extOf ('.' :: t) = extOf t := by
  show ((splitChar '.' ('.' :: t)).getLastD []) = ((splitChar '.' t).getLastD [])
  have : splitChar '.' ('.' :: t) = [] :: splitChar '.' t := by
    simp [splitChar]
  rw [this, List.getLastD_cons]

theorem extOf_cons_ne (d : Char) (hd : d ≠ '.') (t : List Char) :
    extOf (d :: t) = if '.' ∈ t then extOf t else d :: extOf t := by
  by_cases hm : '.' ∈ t
  · obtain ⟨r, rs, hs, hrs⟩ := splitChar_tail_of_mem '.' t hm
    rcases rs with _ | ⟨r2, rs2⟩
    · exact absurd rfl hrs
    · simp [extOf, splitChar, hd, hs, hm, List.getLastD_cons]
  · have hs := splitChar_single_of_not_mem '.' t hm
    simp [extOf, splitChar, hd, hs, hm, List.getLastD_cons]

theorem extOf_append_dot (xs : List Char) : extOf (xs ++ [('.')]) = [] := by
  rw [extOf, splitChar_append_sep]
  simp

theorem extOf_append_ne (c : Char) (hc : c ≠ '.') :
    ∀ xs, extOf (xs ++ [c]) = extOf xs ++ [c] := by
  intro xs
  induction xs with
  | nil => simp [extOf, splitChar, hc]
  | cons d ds ih =>
    by_cases hd : d = '.'
    · subst hd
      rw [List.cons_append, extOf_cons_dot, extOf_cons_dot, ih]
    · rw [List.cons_append, extOf_cons_ne d hd, extOf_cons_ne d hd]
      by_cases hm : '.' ∈ ds
      · have hm2 : '.' ∈ ds ++ [c] := List.mem_append_left _ hm
        rw [if_pos hm2, if_pos hm, ih]
      · have hm2 : '.' ∉ ds ++ [c] := by
          simp [hm, Ne.symm hc]
        rw [if_neg hm2, if_neg hm, ih]
        simp

theorem extOf_eq_suffix (p : List Char) :
    extOf p = (p.reverse.takeWhile (fun c => decide (c ≠ '.'))).reverse := by
  induction p using List.reverseRecOn with
  | nil => simp [extOf, splitChar]
  | append_singleton xs c ih =>
    by_cases hc : c = '.'
    · subst hc
      rw [extOf_append_dot]
      simp
    · rw [extOf_append_ne c hc, ih]
      simp [hc]

/-- Claim C10: for every rendered file, the code-fence language label is the
part of the `processPath` argument path after its last dot (computed as
`path.split('.').pop() || ''`): it always equals the maximal dot-free
suffix of the path, a path containing no dot yields the entire path, and
(for non-empty paths) the label is empty exactly when the path ends in a
dot. -/
theorem C10_extension (p : List Char) :
    extOf p = (p.reverse.takeWhile (fun c => decide (c ≠ '.'))).reverse
    ∧ ('.' ∉ p → extOf p = p)
    ∧ (p ≠ [] → (extOf p = [] ↔ p.getLast? = some '.')) := by
  refine ⟨extOf_eq_suffix p, ?_, ?_⟩
  · intro hm
    have hs := splitChar_single_of_not_mem '.' p hm
    simp [extOf, hs]
  · intro hne
    rcases List.eq_nil_or_concat p with rfl | ⟨xs, c, rfl⟩
    · exact absurd rfl hne
    · rw [List.concat_eq_append]
      by_cases hc : c = '.'
      · subst hc
        constructor
        · intro _
          simp [List.getLast?_concat]
        · intro _
          exact extOf_append_dot xs
      · rw [extOf_append_ne c hc]
        constructor
        · intro h
          exact absurd h (by simp)
        · intro h
          rw [List.getLast?_concat] at h
          exact absurd (Option.some.inj h) hc

/-- Witness for C10 at concrete inputs: a dotless path labels with the
whole path; a path ending in a dot labels empty. -/
theorem C10_extension_witness :
    extOf [('n'), ('o'), ('d'), ('o'), ('t')]
        = [('n'), ('o'), ('d'), ('o'), ('t')]
    ∧ (extOf [('a'), ('.')] = []
        ↔ [('a'), ('.')].getLast? = some '.') :=
  ⟨(C10_extension [('n'), ('o'), ('d'), ('o'), ('t')]).2.1 (by decide),
   (C10_extension [('a'), ('.')]).2.2 (by decide)⟩
